import Mathlib

/-!
Verification of the mesh-heightmap point-sampling core.

The definitions below are a shallow embedding of the Python sources
`src/lib/large_model_handler.py`, `src/lib/point_sampler.py` and
`src/main.py`.  Mesh coordinates are modelled as rationals (every
float64 value is a dyadic rational and the min/max folds are exact on
them); the random barycentric transform is stated over the reals.
Python ints are modelled as `Int`/`Nat` and Python exceptions as an
`Except` error value.  External library draws (`trimesh.sample.*`,
`torch.multinomial`, `mesh.sample`) are modelled at their boundary as
requests recording the face collection whose area-weighted distribution
is sampled and the number of points requested.
-/

namespace MeshHeightmap

/-- Python runtime errors raised by the modelled code paths:
`ZeroDivisionError` from `num_samples // total_faces` with zero faces,
`ValueError` from `range(0, n, 0)` (zero step) and from
`validate_arguments`, and `NameError` from reading `face_probs` before
any chunk iteration assigned it. -/
inductive PyError where
  | zeroDivisionError
  | valueError
  | nameError
  deriving DecidableEq, Repr

/-- One iteration of `for i in range(0, len(xs), cs): yield xs[i : i + cs]`
for a positive step `cs` produces the slice starting at `k * cs`; the loop
runs `(len(xs) + cs - 1) / cs` times (the length of `range(0, N, cs)`). -/
def chunks_pos (xs : List α) (cs : Nat) : List (List α) :=
  (List.range ((xs.length + cs - 1) / cs)).map fun k => (xs.drop (k * cs)).take cs

/-- Embedding of `LargeModelHandler.stream_vertices` / `stream_faces`:
`for i in range(0, total, chunk_size): yield seq[i : i + chunk_size]`.
Python `range` raises `ValueError` on a zero step; with a negative step
and a nonnegative stop the range is empty, so no chunk is yielded. -/
def stream_chunks (xs : List α) (cs : Int) : Except PyError (List (List α)) :=
  if cs = 0 then .error .valueError
  else if cs < 0 then .ok []
  else .ok (chunks_pos xs cs.toNat)

section ChunkLemmas

variable {α : Type _}

theorem chunks_pos_length (xs : List α) (cs : Nat) :
    (chunks_pos xs cs).length = (xs.length + cs - 1) / cs := by
  simp [chunks_pos]

theorem chunks_pos_flatten (xs : List α) (cs : Nat) (hcs : 0 < cs) :
    (chunks_pos xs cs).flatten = xs := by
  have hstep : ∀ m : Nat,
      ((List.range m).map fun k => (xs.drop (k * cs)).take cs).flatten = xs.take (m * cs) := by
    intro m
    induction m with
    | zero => simp
    | succ m ih =>
        rw [List.range_succ, List.map_append, List.flatten_append, ih]
        simp only [List.map_cons, List.map_nil, List.flatten_cons, List.flatten_nil, List.append_nil]
        rw [← List.take_add, Nat.succ_mul]
  have hq : xs.length ≤ ((xs.length + cs - 1) / cs) * cs := by
    have hdm := Nat.div_add_mod (xs.length + cs - 1) cs
    have hlt : (xs.length + cs - 1) % cs < cs := Nat.mod_lt _ hcs
    have h := Nat.mul_comm cs ((xs.length + cs - 1) / cs)
    omega
  rw [chunks_pos, hstep, List.take_of_length_le hq]

/-- Every index `k` of the chunk list starts strictly inside `xs`. -/
theorem chunks_pos_start_lt (xs : List α) (cs : Nat) (hcs : 0 < cs)
    (k : Nat) (hk : k < (xs.length + cs - 1) / cs) : k * cs < xs.length := by
  have h1 : (k + 1) * cs ≤ ((xs.length + cs - 1) / cs) * cs :=
    Nat.mul_le_mul_right cs hk
  have h2 : ((xs.length + cs - 1) / cs) * cs ≤ xs.length + cs - 1 :=
    Nat.div_mul_le_self _ _
  have h3 : (k + 1) * cs = k * cs + cs := Nat.succ_mul _ _
  omega

theorem chunks_pos_mem_length (xs : List α) (cs : Nat) (hcs : 0 < cs) :
    ∀ c ∈ chunks_pos xs cs, c.length ≤ cs ∧ c ≠ [] := by
  intro c hc
  rw [chunks_pos, List.mem_map] at hc
  obtain ⟨k, hk, rfl⟩ := hc
  rw [List.mem_range] at hk
  have hlt := chunks_pos_start_lt xs cs hcs k hk
  constructor
  · exact (List.length_take _ _).trans_le (min_le_left _ _)
  · have hlen : ((xs.drop (k * cs)).take cs).length = min cs (xs.length - k * cs) := by
      simp [List.length_take, List.length_drop]
    intro hnil
    rw [hnil] at hlen
    simp only [List.length_nil] at hlen
    omega

/-- All chunks except possibly the last have exactly `cs` elements. -/
theorem chunks_pos_dropLast_length (xs : List α) (cs : Nat) (hcs : 0 < cs) :
    ∀ c ∈ (chunks_pos xs cs).dropLast, c.length = cs := by
  intro c hc
  set q := (xs.length + cs - 1) / cs with hq
  have hdrop : (chunks_pos xs cs).dropLast
      = (List.range (q - 1)).map fun k => (xs.drop (k * cs)).take cs := by
    rw [chunks_pos, ← hq]
    cases q with
    | zero => simp
    | succ m =>
        rw [List.range_succ, List.map_append]
        simp [List.dropLast_concat]
  rw [hdrop, List.mem_map] at hc
  obtain ⟨k, hk, rfl⟩ := hc
  rw [List.mem_range] at hk
  -- k + 1 is still an index of the chunk list, so chunk k is full.
  have hk1 : k + 1 < q := by omega
  have hlt : (k + 1) * cs < xs.length := chunks_pos_start_lt xs cs hcs (k + 1) hk1
  have h3 : (k + 1) * cs = k * cs + cs := Nat.succ_mul _ _
  rw [List.length_take, List.length_drop]
  omega

end ChunkLemmas

/-- A request issued to an external weighted-sampling primitive
(`trimesh.sample.sample_surface_even` on the CPU path,
`torch.multinomial` over normalized face areas on the GPU path):
`dist` is the face collection whose area-weighted probability
distribution the indices are drawn from, `count` the number of points
requested.  The external primitive is modelled at its boundary as
returning exactly `count` points. -/
structure DrawReq (α : Type _) where
  dist : List α
  count : Nat
  deriving DecidableEq, Repr

namespace LargeModelHandler

/-- Embedding of `LargeModelHandler._sample_points_cpu`: computes
`samples_per_face = num_samples // total_faces` (Python raises
`ZeroDivisionError` on zero faces), then for each streamed face chunk
requests `samples_per_face * len(face_chunk)` points area-weighted over
that chunk, and if `remaining_samples > 0` requests `remaining_samples`
further points area-weighted over the whole mesh
(`self.concatenated_mesh`). -/
def sample_points_cpu (faces : List α) (num_samples : Nat) (cs : Int) :
    Except PyError (List (DrawReq α)) :=
  if faces.length = 0 then .error .zeroDivisionError
  else
    match stream_chunks faces cs with
    | .error e => .error e
    | .ok chunks =>
      let main := chunks.map fun c => DrawReq.mk c (num_samples / faces.length * c.length)
      if num_samples % faces.length > 0 then
        .ok (main ++ [DrawReq.mk faces (num_samples % faces.length)])
      else .ok main

/-- Embedding of `LargeModelHandler._sample_points_gpu`: same per-chunk
requests as the CPU path, but the `remaining_samples` draw reuses the
`face_probs` variable left over from the last loop iteration, i.e. the
distribution of the last processed chunk.  If no chunk was processed,
reading `face_probs` raises `NameError`. -/
def sample_points_gpu (faces : List α) (num_samples : Nat) (cs : Int) :
    Except PyError (List (DrawReq α)) :=
  if faces.length = 0 then .error .zeroDivisionError
  else
    match stream_chunks faces cs with
    | .error e => .error e
    | .ok chunks =>
      let main := chunks.map fun c => DrawReq.mk c (num_samples / faces.length * c.length)
      if num_samples % faces.length > 0 then
        match chunks.getLast? with
        | some lastChunk => .ok (main ++ [DrawReq.mk lastChunk (num_samples % faces.length)])
        | none => .error .nameError
      else .ok main

end LargeModelHandler

namespace PointSampler

/-- Embedding of `PointSampler._sample_points_on_cpu`: computes
`samples_per_thread = num_samples // num_threads` (Python raises
`ZeroDivisionError` on zero threads), submits `num_threads` worker
tasks each requesting `samples_per_thread` points (`mesh.sample`, an
area-weighted draw over the whole mesh), plus one extra task requesting
`remaining_samples` points when positive.  The returned list holds the
requested count of each submitted task, in submission order. -/
def sample_points_on_cpu (num_samples num_threads : Nat) : Except PyError (List Nat) :=
  if num_threads = 0 then .error .zeroDivisionError
  else
    let samples_per_thread := num_samples / num_threads
    let remaining_samples := num_samples % num_threads
    .ok (List.replicate num_threads samples_per_thread ++
      if remaining_samples > 0 then [remaining_samples] else [])

end PointSampler

theorem chunks_pos_sum_counts {α : Type _} (xs : List α) (cs : Nat) (hcs : 0 < cs)
    (per : Nat) : ((chunks_pos xs cs).map fun c => per * c.length).sum = per * xs.length := by
  rw [List.sum_map_mul_left, ← List.length_flatten, chunks_pos_flatten xs cs hcs]

theorem stream_chunks_pos_eq {α : Type _} (xs : List α) (cs : Int) (hcs : 0 < cs) :
    stream_chunks xs cs = .ok (chunks_pos xs cs.toNat) := by
  simp [stream_chunks, ne_of_gt hcs, not_lt_of_gt hcs]

/-- C2: for every finite input sequence and every positive chunk size, the
chunk stream yields exactly `ceil(N / chunk_size)` chunks, every chunk is
nonempty of size at most `chunk_size`, every chunk except possibly the last
has exactly `chunk_size` elements, and the concatenation of the chunks is
the original sequence (every index covered exactly once, in order). -/
theorem C2_chunk_stream {α : Type _} (xs : List α) (cs : Int) (hcs : 0 < cs) :
    ∃ L, stream_chunks xs cs = .ok L ∧
      L.length = (xs.length + cs.toNat - 1) / cs.toNat ∧
      (∀ c ∈ L.dropLast, c.length = cs.toNat) ∧
      (∀ c ∈ L, c.length ≤ cs.toNat ∧ c ≠ []) ∧
      L.flatten = xs := by
  have hne : cs ≠ 0 := ne_of_gt hcs
  have hnlt : ¬ cs < 0 := not_lt_of_gt hcs
  have hpos : 0 < cs.toNat := by omega
  refine ⟨chunks_pos xs cs.toNat, ?_, ?_, ?_, ?_, ?_⟩
  · simp [stream_chunks, hne, hnlt]
  · exact chunks_pos_length xs cs.toNat
  · exact chunks_pos_dropLast_length xs cs.toNat hpos
  · exact chunks_pos_mem_length xs cs.toNat hpos
  · exact chunks_pos_flatten xs cs.toNat hpos

theorem C2_chunk_stream_witness :
    (0 : Int) < 2 ∧
    ∃ L, stream_chunks [0, 1, 2, 3, 4] (2 : Int) = .ok L ∧
      L.length = (([0, 1, 2, 3, 4] : List Nat).length + (2 : Int).toNat - 1) / (2 : Int).toNat ∧
      (∀ c ∈ L.dropLast, c.length = (2 : Int).toNat) ∧
      (∀ c ∈ L, c.length ≤ (2 : Int).toNat ∧ c ≠ []) ∧
      L.flatten = [0, 1, 2, 3, 4] :=
  ⟨by decide, C2_chunk_stream [0, 1, 2, 3, 4] 2 (by decide)⟩

/-- C1: for every mesh with at least one face, every positive number of
samples, every positive chunk size and every positive worker count, the
CPU sampling operation's requested draws sum to exactly `num_samples`:
in `LargeModelHandler._sample_points_cpu` the per-chunk draws of
`(num_samples div total_faces) * chunk_length` points plus the remainder
batch sum to `num_samples`, and in `PointSampler._sample_points_on_cpu`
the per-worker draws plus the remainder task sum to `num_samples`. -/
theorem C1_exact_count {α : Type _} (faces : List α) (hf : faces ≠ [])
    (num_samples : Nat) (_hn : 0 < num_samples) (cs : Int) (hcs : 0 < cs)
    (num_threads : Nat) (ht : 0 < num_threads) :
    (∃ ds, LargeModelHandler.sample_points_cpu faces num_samples cs = .ok ds ∧
      (ds.map DrawReq.count).sum = num_samples) ∧
    (∃ ts, PointSampler.sample_points_on_cpu num_samples num_threads = .ok ts ∧
      ts.sum = num_samples) := by
  have hne : cs ≠ 0 := ne_of_gt hcs
  have hnlt : ¬ cs < 0 := not_lt_of_gt hcs
  have hNpos : 0 < faces.length := List.length_pos.mpr hf
  have hN : ¬ faces.length = 0 := Nat.pos_iff_ne_zero.mp hNpos
  have hcspos : 0 < cs.toNat := by omega
  constructor
  · have hdm := Nat.div_add_mod num_samples faces.length
    have hsum := chunks_pos_sum_counts faces cs.toNat hcspos (num_samples / faces.length)
    refine ⟨(chunks_pos faces cs.toNat).map
        (fun c => DrawReq.mk c (num_samples / faces.length * c.length)) ++
        (if num_samples % faces.length > 0 then
          [DrawReq.mk faces (num_samples % faces.length)] else []), ?_, ?_⟩
    · simp only [LargeModelHandler.sample_points_cpu, hN, if_false,
        stream_chunks_pos_eq faces cs hcs]
      by_cases hrem : num_samples % faces.length > 0 <;>
        simp only [hrem, if_true, if_false, List.append_nil]
    · have hdm' : num_samples / faces.length * faces.length + num_samples % faces.length
          = num_samples := by
        rw [Nat.mul_comm]; exact hdm
      by_cases hrem : num_samples % faces.length > 0 <;>
        simp only [hrem, if_true, if_false, List.map_append, List.sum_append,
          List.map_map, List.map_nil, List.sum_nil, List.map_cons, List.sum_cons] <;>
        · have : ((chunks_pos faces cs.toNat).map
              (DrawReq.count ∘ fun c => DrawReq.mk c (num_samples / faces.length * c.length))).sum
              = num_samples / faces.length * faces.length := by
            simpa [Function.comp] using hsum
          omega
  · have hdm := Nat.div_add_mod num_samples num_threads
    have htne : ¬ num_threads = 0 := Nat.pos_iff_ne_zero.mp ht
    refine ⟨List.replicate num_threads (num_samples / num_threads) ++
      (if num_samples % num_threads > 0 then [num_samples % num_threads] else []), ?_, ?_⟩
    · simp [PointSampler.sample_points_on_cpu, htne]
    · by_cases hrem : num_samples % num_threads > 0 <;>
        simp only [hrem, if_true, if_false, List.sum_append, List.sum_replicate,
          smul_eq_mul, List.sum_nil, List.sum_cons] <;> omega

theorem C1_exact_count_witness :
    (([0, 1, 2] : List Nat) ≠ [] ∧ 0 < 7 ∧ (0 : Int) < 2 ∧ 0 < 2) ∧
    ((∃ ds, LargeModelHandler.sample_points_cpu ([0, 1, 2] : List Nat) 7 2 = .ok ds ∧
      (ds.map DrawReq.count).sum = 7) ∧
    (∃ ts, PointSampler.sample_points_on_cpu 7 2 = .ok ts ∧ ts.sum = 7)) :=
  ⟨⟨by decide, by decide, by decide, by decide⟩,
    C1_exact_count [0, 1, 2] (by decide) 7 (by decide) 2 (by decide) 2 (by decide)⟩

theorem getLast?_append_singleton {β : Type _} (l : List β) (a : β) :
    (l ++ [a]).getLast? = some a := by
  simp

theorem chunks_pos_ne_nil {α : Type _} (xs : List α) (hx : xs ≠ []) (cs : Nat)
    (hcs : 0 < cs) : chunks_pos xs cs ≠ [] := by
  have hxpos : 0 < xs.length := List.length_pos.mpr hx
  have : 0 < (xs.length + cs - 1) / cs := Nat.div_pos (by omega) hcs
  have hlen := chunks_pos_length xs cs
  exact List.length_pos.mp (by omega)

/-- C3: when the remainder `num_samples mod total_faces` is positive, the
CPU sampler's final draw requests the remainder from the area-weighted
distribution over all faces of the whole mesh, while the GPU sampler's
final draw requests the remainder from the face-probability distribution
of the last processed chunk (the leftover `face_probs`), not recomputed
over the whole mesh. -/
theorem C3_remainder_distribution {α : Type _} (faces : List α) (hf : faces ≠ [])
    (num_samples : Nat) (cs : Int) (hcs : 0 < cs)
    (hrem : 0 < num_samples % faces.length) :
    ∃ ds_cpu ds_gpu lastChunk,
      LargeModelHandler.sample_points_cpu faces num_samples cs = .ok ds_cpu ∧
      LargeModelHandler.sample_points_gpu faces num_samples cs = .ok ds_gpu ∧
      (chunks_pos faces cs.toNat).getLast? = some lastChunk ∧
      ds_cpu.getLast? = some (DrawReq.mk faces (num_samples % faces.length)) ∧
      ds_gpu.getLast? = some (DrawReq.mk lastChunk (num_samples % faces.length)) := by
  have hne : cs ≠ 0 := ne_of_gt hcs
  have hnlt : ¬ cs < 0 := not_lt_of_gt hcs
  have hN : ¬ faces.length = 0 := by simpa using hf
  have hcspos : 0 < cs.toNat := by omega
  have hck := chunks_pos_ne_nil faces hf cs.toNat hcspos
  obtain ⟨lc, hlc⟩ : ∃ lc, (chunks_pos faces cs.toNat).getLast? = some lc := by
    cases h : (chunks_pos faces cs.toNat).getLast? with
    | some lc => exact ⟨lc, rfl⟩
    | none => exact absurd (List.getLast?_eq_none_iff.mp h) hck
  have hrem' : num_samples % faces.length > 0 := hrem
  refine ⟨(chunks_pos faces cs.toNat).map
      (fun c => DrawReq.mk c (num_samples / faces.length * c.length)) ++
      [DrawReq.mk faces (num_samples % faces.length)],
    (chunks_pos faces cs.toNat).map
      (fun c => DrawReq.mk c (num_samples / faces.length * c.length)) ++
      [DrawReq.mk lc (num_samples % faces.length)],
    lc, ?_, ?_, hlc, getLast?_append_singleton _ _, getLast?_append_singleton _ _⟩
  · simp only [LargeModelHandler.sample_points_cpu, hN, if_false,
      stream_chunks_pos_eq faces cs hcs, hrem', if_true]
  · simp only [LargeModelHandler.sample_points_gpu, hN, if_false,
      stream_chunks_pos_eq faces cs hcs, hrem', if_true, hlc]

theorem C3_remainder_distribution_witness :
    (([10, 11, 12] : List Nat) ≠ [] ∧ (0 : Int) < 2 ∧ 0 < 4 % ([10, 11, 12] : List Nat).length) ∧
    (∃ ds_cpu ds_gpu lastChunk,
      LargeModelHandler.sample_points_cpu ([10, 11, 12] : List Nat) 4 2 = .ok ds_cpu ∧
      LargeModelHandler.sample_points_gpu ([10, 11, 12] : List Nat) 4 2 = .ok ds_gpu ∧
      (chunks_pos ([10, 11, 12] : List Nat) (2 : Int).toNat).getLast? = some lastChunk ∧
      ds_cpu.getLast? = some (DrawReq.mk [10, 11, 12] (4 % ([10, 11, 12] : List Nat).length)) ∧
      ds_gpu.getLast? = some (DrawReq.mk lastChunk (4 % ([10, 11, 12] : List Nat).length))) :=
  ⟨⟨by decide, by decide, by decide⟩,
    C3_remainder_distribution [10, 11, 12] (by decide) 4 2 (by decide) (by decide)⟩

/-- The command-line arguments checked by `main.validate_arguments`. -/
structure Args where
  max_resolution : Int
  num_samples : Int
  num_threads : Int
  chunk_size : Int
  deriving DecidableEq, Repr

/-- Embedding of `main.validate_arguments`: raises `ValueError` on
non-positive `max_resolution`, non-positive `num_samples`,
`num_threads < 1`, or non-positive `chunk_size`, in that order. -/
def validate_arguments (a : Args) : Except PyError Unit :=
  if a.max_resolution ≤ 0 then .error .valueError
  else if a.num_samples ≤ 0 then .error .valueError
  else if a.num_threads < 1 then .error .valueError
  else if a.chunk_size ≤ 0 then .error .valueError
  else .ok ()

/-- C8 counterexample: with `chunk_size = -1 ≤ 0`, streaming chunks does
not fail at all: `range(0, N, -1)` is empty, so the stream silently
yields no chunks, and a bounding-box pass over it would return the
initial extrema unchanged. -/
theorem C8_counterexample :
    (-1 : Int) ≤ 0 ∧ stream_chunks [(0 : Nat)] (-1) = .ok [] :=
  ⟨by decide, rfl⟩

/-- C8 (amended): only `chunk_size = 0` makes streaming itself fail
(Python `range` raises `ValueError` on a zero step); a negative
`chunk_size` makes the stream silently yield no chunks (so consuming
passes see an empty stream rather than an error).  The command-line
validation layer (`main.validate_arguments`) is what rejects every
`chunk_size ≤ 0`, raising `ValueError`. -/
theorem C8_amended {α : Type _} (xs : List α) (cs : Int) (hcs : cs < 0)
    (a : Args) (ha : a.chunk_size ≤ 0) :
    stream_chunks xs 0 = .error .valueError ∧
    stream_chunks xs cs = .ok [] ∧
    validate_arguments a ≠ .ok () := by
  refine ⟨by simp [stream_chunks], ?_, ?_⟩
  · simp [stream_chunks, hcs, ne_of_lt hcs]
  · unfold validate_arguments
    split_ifs with h1 h2 h3 <;> simp_all

theorem C8_amended_witness :
    ((-1 : Int) < 0 ∧ (Args.mk 256 10000 4 0).chunk_size ≤ 0) ∧
    (stream_chunks ([(0 : Nat)] : List Nat) 0 = .error .valueError ∧
     stream_chunks ([(0 : Nat)] : List Nat) (-1) = .ok [] ∧
     validate_arguments (Args.mk 256 10000 4 0) ≠ .ok ()) :=
  ⟨⟨by decide, by decide⟩,
    C8_amended [(0 : Nat)] (-1) (by decide) (Args.mk 256 10000 4 0) (by decide)⟩

/-- Which sampling implementation a call dispatched to. -/
inductive SamplePath where
  | cpu
  | gpu
  deriving DecidableEq, Repr

namespace LargeModelHandler

/-- Trace of one `LargeModelHandler.sample_points` call: the draw
requests of the path taken, which path ran, whether
`torch.cuda.is_available()` was evaluated, and whether the fallback
warning was logged. -/
structure OrchTrace (α : Type _) where
  result : Except PyError (List (DrawReq α))
  path : SamplePath
  queriedCuda : Bool
  warned : Bool

/-- Embedding of `LargeModelHandler.sample_points`: with `use_gpu`
false it returns `_sample_points_cpu` immediately (before `torch.cuda`
is even imported); otherwise it evaluates `cuda_is_available()` and
either runs the GPU sampler, or logs a warning and falls back to the
CPU sampler.  `cuda_available` stands for the runtime answer of that
query. -/
def sample_points (faces : List α) (num_samples : Nat) (cs : Int)
    (use_gpu cuda_available : Bool) : OrchTrace α :=
  if !use_gpu then
    { result := sample_points_cpu faces num_samples cs, path := .cpu,
      queriedCuda := false, warned := false }
  else if cuda_available then
    { result := sample_points_gpu faces num_samples cs, path := .gpu,
      queriedCuda := true, warned := false }
  else
    { result := sample_points_cpu faces num_samples cs, path := .cpu,
      queriedCuda := true, warned := true }

end LargeModelHandler

namespace PointSampler

/-- Trace of one `PointSampler.sample_points` call: the submitted
per-task point counts of the path taken, which path ran, whether
`torch.cuda.is_available()` was evaluated (Python's `and`
short-circuits, so only when `use_gpu` is true), and whether a warning
was logged. -/
structure PsTrace where
  result : Except PyError (List Nat)
  path : SamplePath
  queriedCuda : Bool
  warned : Bool

/-- Embedding of `PointSampler.sample_points`:
`if use_gpu and torch.cuda.is_available()` runs the GPU sampler (one
batched `num_samples`-point draw over the whole mesh), `else` the CPU
sampler.  No branch logs a warning. -/
def sample_points (num_samples num_threads : Nat)
    (use_gpu cuda_available : Bool) : PsTrace :=
  if use_gpu then
    if cuda_available then
      { result := .ok [num_samples], path := .gpu, queriedCuda := true, warned := false }
    else
      { result := sample_points_on_cpu num_samples num_threads, path := .cpu,
        queriedCuda := true, warned := false }
  else
    { result := sample_points_on_cpu num_samples num_threads, path := .cpu,
      queriedCuda := false, warned := false }

end PointSampler

/-- C6 counterexample: `PointSampler.sample_points` with GPU requested
but unavailable falls back to the CPU path without emitting any
warning, refuting "for every call where GPU execution is requested but
no compatible device is available, the orchestrator invokes the CPU
path and emits a warning". -/
theorem C6_counterexample :
    (PointSampler.sample_points 10 4 true false).path = .cpu ∧
    (PointSampler.sample_points 10 4 true false).warned = false :=
  ⟨rfl, rfl⟩

/-- C6 (amended): when GPU execution is requested and a device is
detected, both orchestrators invoke the GPU path; when GPU execution is
requested but no device is available, both invoke the CPU path, but
only `LargeModelHandler.sample_points` emits the warning —
`PointSampler.sample_points` falls back silently.  The GPU path is
entered exactly when `use_gpu` and the device query both hold, so the
GPU samplers themselves never fall back. -/
theorem C6_amended {α : Type _} (faces : List α) (num_samples : Nat) (cs : Int)
    (num_threads : Nat) :
    ((LargeModelHandler.sample_points faces num_samples cs true true).path = .gpu ∧
      (LargeModelHandler.sample_points faces num_samples cs true true).warned = false) ∧
    ((LargeModelHandler.sample_points faces num_samples cs true false).path = .cpu ∧
      (LargeModelHandler.sample_points faces num_samples cs true false).warned = true ∧
      (LargeModelHandler.sample_points faces num_samples cs true false).result
        = LargeModelHandler.sample_points_cpu faces num_samples cs) ∧
    ((PointSampler.sample_points num_samples num_threads true true).path = .gpu ∧
      (PointSampler.sample_points num_samples num_threads true false).path = .cpu ∧
      (PointSampler.sample_points num_samples num_threads true false).warned = false) ∧
    (∀ g c : Bool, (LargeModelHandler.sample_points faces num_samples cs g c).path = .gpu
        ↔ (g = true ∧ c = true)) := by
  refine ⟨⟨rfl, rfl⟩, ⟨rfl, rfl, rfl⟩, ⟨rfl, rfl, rfl⟩, ?_⟩
  intro g c
  cases g <;> cases c <;>
    simp [LargeModelHandler.sample_points]

/-- C10: calling `LargeModelHandler.sample_points` with `use_gpu =
False` is the direct CPU sampler call: the returned trace is exactly
the CPU sampler's result on the CPU path, the GPU branch is never
entered and the device-availability query is not evaluated, whatever
the device state `cuda_available` is. -/
theorem C10_cpu_path_direct {α : Type _} (faces : List α) (num_samples : Nat)
    (cs : Int) (cuda_available : Bool) :
    LargeModelHandler.sample_points faces num_samples cs false cuda_available
      = { result := LargeModelHandler.sample_points_cpu faces num_samples cs,
          path := .cpu, queriedCuda := false, warned := false } :=
  rfl

/-- C7 counterexample: with `num_samples = 0` and four worker threads,
`PointSampler._sample_points_on_cpu` still submits four worker tasks
(each requesting zero points), refuting "no worker task is
submitted". -/
theorem C7_counterexample :
    PointSampler.sample_points_on_cpu 0 4 = .ok [0, 0, 0, 0] ∧
    ([0, 0, 0, 0] : List Nat).length = 4 :=
  ⟨rfl, by decide⟩

/-- C7 (amended): for `num_samples = 0` on a valid mesh the CPU
samplers return an empty SampleSet (every requested draw has count 0
and no remainder batch is added), but work is still scheduled:
`PointSampler` submits `num_threads` zero-point worker tasks, and the
chunked CPU sampler issues one zero-point draw per face chunk. -/
theorem C7_amended {α : Type _} (faces : List α) (hf : faces ≠ []) (cs : Int)
    (hcs : 0 < cs) (num_threads : Nat) (ht : 0 < num_threads) :
    PointSampler.sample_points_on_cpu 0 num_threads
      = .ok (List.replicate num_threads 0) ∧
    LargeModelHandler.sample_points_cpu faces 0 cs
      = .ok ((chunks_pos faces cs.toNat).map fun c => DrawReq.mk c 0) ∧
    (((chunks_pos faces cs.toNat).map fun c => DrawReq.mk c 0).map DrawReq.count).sum = 0 := by
  have hN : ¬ faces.length = 0 := by simpa using hf
  have htne : ¬ num_threads = 0 := Nat.pos_iff_ne_zero.mp ht
  refine ⟨?_, ?_, ?_⟩
  · simp [PointSampler.sample_points_on_cpu, htne, Nat.zero_div, Nat.zero_mod]
  · simp [LargeModelHandler.sample_points_cpu, hN,
      stream_chunks_pos_eq faces cs hcs, Nat.zero_div, Nat.zero_mod, Nat.zero_mul]
  · rw [List.map_map]
    refine List.sum_eq_zero ?_
    intro x hx
    rw [List.mem_map] at hx
    obtain ⟨c, _, rfl⟩ := hx
    rfl

theorem C7_amended_witness :
    (([5, 6, 7] : List Nat) ≠ [] ∧ (0 : Int) < 2 ∧ 0 < 3) ∧
    (PointSampler.sample_points_on_cpu 0 3 = .ok (List.replicate 3 0) ∧
     LargeModelHandler.sample_points_cpu ([5, 6, 7] : List Nat) 0 2
       = .ok ((chunks_pos ([5, 6, 7] : List Nat) (2 : Int).toNat).map fun c => DrawReq.mk c 0) ∧
     (((chunks_pos ([5, 6, 7] : List Nat) (2 : Int).toNat).map
        fun c => DrawReq.mk c 0).map DrawReq.count).sum = 0) :=
  ⟨⟨by decide, by decide, by decide⟩,
    C7_amended [5, 6, 7] (by decide) 2 (by decide) 3 (by decide)⟩

/-- A vertex of the mesh: one row of `mesh.vertices`.  Coordinates are
modelled as rationals: every float64 value is a dyadic rational, and
the min/max folds of the bounding-box pass return one of their inputs
unchanged, so they are exact on this domain. -/
structure Vec3 where
  x : ℚ
  y : ℚ
  z : ℚ
  deriving DecidableEq, Repr

/-- Componentwise minimum of coordinate `f` over a vertex chunk, seeded
at `⊤`: models the result of `np.min(chunk, axis=0)` folded into the
running extrema.  On the nonempty chunks produced by streaming this is
the coercion of the chunk's real minimum, and the `⊤` seed is exactly
the `np.inf` initialization of the accumulator. -/
def coordMin (f : Vec3 → ℚ) (c : List Vec3) : WithTop ℚ :=
  c.foldl (fun m v => min m ↑(f v)) ⊤

/-- Componentwise maximum of coordinate `f` over a vertex chunk, seeded
at `⊥` (`-np.inf`); dual of `coordMin`. -/
def coordMax (f : Vec3 → ℚ) (c : List Vec3) : WithBot ℚ :=
  c.foldl (fun m v => max m ↑(f v)) ⊥

/-- One loop iteration of `calculate_bounding_box`:
`min_coords = np.minimum(min_coords, np.min(chunk, axis=0))` and
`max_coords = np.maximum(max_coords, np.max(chunk, axis=0))`,
componentwise on the two running 3-vectors. -/
def bbox_step (acc : (WithTop ℚ × WithTop ℚ × WithTop ℚ) × (WithBot ℚ × WithBot ℚ × WithBot ℚ))
    (c : List Vec3) :
    (WithTop ℚ × WithTop ℚ × WithTop ℚ) × (WithBot ℚ × WithBot ℚ × WithBot ℚ) :=
  ((min acc.1.1 (coordMin Vec3.x c), min acc.1.2.1 (coordMin Vec3.y c),
    min acc.1.2.2 (coordMin Vec3.z c)),
   (max acc.2.1 (coordMax Vec3.x c), max acc.2.2.1 (coordMax Vec3.y c),
    max acc.2.2.2 (coordMax Vec3.z c)))

/-- Embedding of `LargeModelHandler.calculate_bounding_box`: initializes
`min_coords = (inf, inf, inf)` and `max_coords = (-inf, -inf, -inf)`,
folds every streamed vertex chunk into them componentwise, and returns
the pair.  No emptiness check is performed. -/
def calculate_bounding_box (verts : List Vec3) (cs : Int) :
    Except PyError ((WithTop ℚ × WithTop ℚ × WithTop ℚ) × (WithBot ℚ × WithBot ℚ × WithBot ℚ)) :=
  match stream_chunks verts cs with
  | .error e => .error e
  | .ok chunks => .ok (chunks.foldl bbox_step ((⊤, ⊤, ⊤), (⊥, ⊥, ⊥)))

theorem foldl_bbox_step :
    ∀ (chunks : List (List Vec3)) (m1 m2 m3 : WithTop ℚ) (M1 M2 M3 : WithBot ℚ),
      chunks.foldl bbox_step ((m1, m2, m3), (M1, M2, M3))
        = ((chunks.foldl (fun m c => min m (coordMin Vec3.x c)) m1,
            chunks.foldl (fun m c => min m (coordMin Vec3.y c)) m2,
            chunks.foldl (fun m c => min m (coordMin Vec3.z c)) m3),
           (chunks.foldl (fun m c => max m (coordMax Vec3.x c)) M1,
            chunks.foldl (fun m c => max m (coordMax Vec3.y c)) M2,
            chunks.foldl (fun m c => max m (coordMax Vec3.z c)) M3))
  | [], _, _, _, _, _, _ => rfl
  | c :: chunks, m1, m2, m3, M1, M2, M3 =>
      foldl_bbox_step chunks
        (min m1 (coordMin Vec3.x c)) (min m2 (coordMin Vec3.y c)) (min m3 (coordMin Vec3.z c))
        (max M1 (coordMax Vec3.x c)) (max M2 (coordMax Vec3.y c)) (max M3 (coordMax Vec3.z c))

theorem foldl_min_acc {σ β : Type _} [LinearOrder β] (f : σ → β) :
    ∀ (l : List σ) (a b : β),
      l.foldl (fun m v => min m (f v)) (min a b)
        = min a (l.foldl (fun m v => min m (f v)) b)
  | [], _, _ => rfl
  | v :: l, a, b => by
      simp only [List.foldl_cons]
      rw [min_assoc a b (f v), foldl_min_acc f l a (min b (f v))]

theorem foldl_max_acc {σ β : Type _} [LinearOrder β] (f : σ → β) :
    ∀ (l : List σ) (a b : β),
      l.foldl (fun m v => max m (f v)) (max a b)
        = max a (l.foldl (fun m v => max m (f v)) b)
  | [], _, _ => rfl
  | v :: l, a, b => by
      simp only [List.foldl_cons]
      rw [max_assoc a b (f v), foldl_max_acc f l a (max b (f v))]

theorem foldl_min_chunks {σ β : Type _} [LinearOrder β] [OrderTop β] (f : σ → β) :
    ∀ (ll : List (List σ)) (a : β),
      ll.foldl (fun m c => min m (c.foldl (fun m v => min m (f v)) ⊤)) a
        = ll.flatten.foldl (fun m v => min m (f v)) a
  | [], _ => rfl
  | c :: ll, a => by
      simp only [List.foldl_cons, List.flatten_cons, List.foldl_append]
      have h : min a (c.foldl (fun m v => min m (f v)) ⊤)
          = c.foldl (fun m v => min m (f v)) a := by
        rw [← foldl_min_acc f c a ⊤, min_eq_left le_top]
      rw [h, foldl_min_chunks f ll (c.foldl (fun m v => min m (f v)) a)]

theorem foldl_max_chunks {σ β : Type _} [LinearOrder β] [OrderBot β] (f : σ → β) :
    ∀ (ll : List (List σ)) (a : β),
      ll.foldl (fun m c => max m (c.foldl (fun m v => max m (f v)) ⊥)) a
        = ll.flatten.foldl (fun m v => max m (f v)) a
  | [], _ => rfl
  | c :: ll, a => by
      simp only [List.foldl_cons, List.flatten_cons, List.foldl_append]
      have h : max a (c.foldl (fun m v => max m (f v)) ⊥)
          = c.foldl (fun m v => max m (f v)) a := by
        rw [← foldl_max_acc f c a ⊥, max_eq_left bot_le]
      rw [h, foldl_max_chunks f ll (c.foldl (fun m v => max m (f v)) a)]

/-- For any positive chunk size the bounding-box fold computes the
componentwise extrema over the whole vertex sequence. -/
theorem calculate_bounding_box_pos (verts : List Vec3) (cs : Int) (hcs : 0 < cs) :
    calculate_bounding_box verts cs
      = .ok ((coordMin Vec3.x verts, coordMin Vec3.y verts, coordMin Vec3.z verts),
             (coordMax Vec3.x verts, coordMax Vec3.y verts, coordMax Vec3.z verts)) := by
  have hcp : 0 < cs.toNat := by omega
  simp only [calculate_bounding_box, stream_chunks_pos_eq verts cs hcs]
  rw [foldl_bbox_step]
  have hx : (chunks_pos verts cs.toNat).foldl (fun m c => min m (coordMin Vec3.x c)) ⊤
      = coordMin Vec3.x verts := by
    simp only [coordMin]
    rw [foldl_min_chunks, chunks_pos_flatten verts cs.toNat hcp]
  have hy : (chunks_pos verts cs.toNat).foldl (fun m c => min m (coordMin Vec3.y c)) ⊤
      = coordMin Vec3.y verts := by
    simp only [coordMin]
    rw [foldl_min_chunks, chunks_pos_flatten verts cs.toNat hcp]
  have hz : (chunks_pos verts cs.toNat).foldl (fun m c => min m (coordMin Vec3.z c)) ⊤
      = coordMin Vec3.z verts := by
    simp only [coordMin]
    rw [foldl_min_chunks, chunks_pos_flatten verts cs.toNat hcp]
  have hX : (chunks_pos verts cs.toNat).foldl (fun m c => max m (coordMax Vec3.x c)) ⊥
      = coordMax Vec3.x verts := by
    simp only [coordMax]
    rw [foldl_max_chunks, chunks_pos_flatten verts cs.toNat hcp]
  have hY : (chunks_pos verts cs.toNat).foldl (fun m c => max m (coordMax Vec3.y c)) ⊥
      = coordMax Vec3.y verts := by
    simp only [coordMax]
    rw [foldl_max_chunks, chunks_pos_flatten verts cs.toNat hcp]
  have hZ : (chunks_pos verts cs.toNat).foldl (fun m c => max m (coordMax Vec3.z c)) ⊥
      = coordMax Vec3.z verts := by
    simp only [coordMax]
    rw [foldl_max_chunks, chunks_pos_flatten verts cs.toNat hcp]
  rw [hx, hy, hz, hX, hY, hZ]

/-- C4: for every non-empty vertex sequence the bounding-box computation
returns the same (min, max) pair for all positive chunk sizes — the
componentwise min/max fold over chunks is associative and commutative,
so `chunk_size = 1` and `chunk_size = total_vertices` (or any other
positive sizes) give exactly equal results. -/
theorem C4_bbox_chunk_invariant (verts : List Vec3) (_hne : verts ≠ [])
    (cs1 cs2 : Int) (h1 : 0 < cs1) (h2 : 0 < cs2) :
    calculate_bounding_box verts cs1 = calculate_bounding_box verts cs2 := by
  rw [calculate_bounding_box_pos verts cs1 h1, calculate_bounding_box_pos verts cs2 h2]

theorem C4_bbox_chunk_invariant_witness :
    (([⟨0, 0, 0⟩, ⟨1, 2, 3⟩] : List Vec3) ≠ [] ∧ (0 : Int) < 1 ∧ (0 : Int) < 2) ∧
    calculate_bounding_box [⟨0, 0, 0⟩, ⟨1, 2, 3⟩] 1
      = calculate_bounding_box [⟨0, 0, 0⟩, ⟨1, 2, 3⟩] 2 :=
  ⟨⟨by simp, by decide, by decide⟩,
    C4_bbox_chunk_invariant [⟨0, 0, 0⟩, ⟨1, 2, 3⟩] (by simp) 1 2 (by decide) (by decide)⟩

/-- C5 counterexample: a mesh with zero vertices does not make the
bounding-box computation fail at all — it returns the initial infinite
extrema `((+inf, +inf, +inf), (-inf, -inf, -inf))` (the default
`chunk_size` of 1000000 is used here). -/
theorem C5_counterexample :
    calculate_bounding_box [] 1000000 = .ok ((⊤, ⊤, ⊤), (⊥, ⊥, ⊥)) :=
  rfl

/-- C5 (amended): for a zero-vertex mesh the bounding-box computation
does not fail: it returns the initial infinite extrema.  For a
zero-face mesh both the CPU and the GPU sampling operations do fail,
but with Python's `ZeroDivisionError` raised by
`num_samples // self.total_faces` — the code has no dedicated
InvalidMesh error. -/
theorem C5_amended {α : Type _} (cs : Int) (hcs : 0 < cs) (num_samples : Nat) :
    calculate_bounding_box [] cs = .ok ((⊤, ⊤, ⊤), (⊥, ⊥, ⊥)) ∧
    LargeModelHandler.sample_points_cpu ([] : List α) num_samples cs
      = .error .zeroDivisionError ∧
    LargeModelHandler.sample_points_gpu ([] : List α) num_samples cs
      = .error .zeroDivisionError := by
  refine ⟨?_, rfl, rfl⟩
  have hz : chunks_pos ([] : List Vec3) cs.toNat = [] := by
    have h0 : (cs.toNat - 1) / cs.toNat = 0 := Nat.div_eq_of_lt (by omega)
    simp [chunks_pos, h0]
  simp [calculate_bounding_box, stream_chunks_pos_eq ([] : List Vec3) cs hcs, hz]

theorem C5_amended_witness :
    (0 : Int) < 3 ∧
    (calculate_bounding_box [] 3 = .ok ((⊤, ⊤, ⊤), (⊥, ⊥, ⊥)) ∧
     LargeModelHandler.sample_points_cpu ([] : List Nat) 5 3 = .error .zeroDivisionError ∧
     LargeModelHandler.sample_points_gpu ([] : List Nat) 5 3 = .error .zeroDivisionError) :=
  ⟨by decide, C5_amended 3 (by decide) 5⟩

/-- On a nonempty vertex list the min-fold produces a finite value:
the least coordinate, which bounds every member from below. -/
theorem coordMin_spec (f : Vec3 → ℚ) :
    ∀ (l : List Vec3), l ≠ [] →
      ∃ q : ℚ, coordMin f l = ↑q ∧ ∀ v ∈ l, q ≤ f v := by
  have haux : ∀ (t : List Vec3) (q : ℚ),
      ∃ r : ℚ, t.foldl (fun m v => min m ↑(f v)) (↑q : WithTop ℚ) = ↑r ∧
        r ≤ q ∧ ∀ v ∈ t, r ≤ f v := by
    intro t
    induction t with
    | nil => exact fun q => ⟨q, rfl, le_refl q, fun v hv => absurd hv (List.not_mem_nil v)⟩
    | cons w t ih =>
        intro q
        obtain ⟨r, hr, hrq, hrmem⟩ := ih (min q (f w))
        refine ⟨r, ?_, le_trans hrq (min_le_left _ _), ?_⟩
        · simpa [WithTop.coe_min] using hr
        · intro v hv
          rcases List.mem_cons.mp hv with h | h
          · exact h ▸ le_trans hrq (min_le_right _ _)
          · exact hrmem v h
  intro l hl
  cases l with
  | nil => exact absurd rfl hl
  | cons w t =>
      obtain ⟨r, hr, hrq, hrmem⟩ := haux t (f w)
      refine ⟨r, ?_, ?_⟩
      · rw [coordMin, List.foldl_cons, min_eq_right (le_top : (↑(f w) : WithTop ℚ) ≤ ⊤)]
        exact hr
      · intro v hv
        rcases List.mem_cons.mp hv with h | h
        · exact h ▸ hrq
        · exact hrmem v h

/-- Dual of `coordMin_spec`: the max-fold over a nonempty vertex list is
the finite greatest coordinate, bounding every member from above. -/
theorem coordMax_spec (f : Vec3 → ℚ) :
    ∀ (l : List Vec3), l ≠ [] →
      ∃ q : ℚ, coordMax f l = ↑q ∧ ∀ v ∈ l, f v ≤ q := by
  have haux : ∀ (t : List Vec3) (q : ℚ),
      ∃ r : ℚ, t.foldl (fun m v => max m ↑(f v)) (↑q : WithBot ℚ) = ↑r ∧
        q ≤ r ∧ ∀ v ∈ t, f v ≤ r := by
    intro t
    induction t with
    | nil => exact fun q => ⟨q, rfl, le_refl q, fun v hv => absurd hv (List.not_mem_nil v)⟩
    | cons w t ih =>
        intro q
        obtain ⟨r, hr, hrq, hrmem⟩ := ih (max q (f w))
        refine ⟨r, ?_, le_trans (le_max_left _ _) hrq, ?_⟩
        · simpa [WithBot.coe_max] using hr
        · intro v hv
          rcases List.mem_cons.mp hv with h | h
          · exact h ▸ le_trans (le_max_right _ _) hrq
          · exact hrmem v h
  intro l hl
  cases l with
  | nil => exact absurd rfl hl
  | cons w t =>
      obtain ⟨r, hr, hrq, hrmem⟩ := haux t (f w)
      refine ⟨r, ?_, ?_⟩
      · rw [coordMax, List.foldl_cons, max_eq_right (bot_le : (⊥ : WithBot ℚ) ≤ ↑(f w))]
        exact hr
      · intro v hv
        rcases List.mem_cons.mp hv with h | h
        · exact h ▸ hrq
        · exact hrmem v h

/-- A convex combination of three values lies between any common lower
and upper bound of the values. -/
theorem convex_comb_bounds (u v w : ℝ) (hu : 0 ≤ u) (hv : 0 ≤ v) (hw : 0 ≤ w)
    (hsum : u + v + w = 1) (a b c lo hi : ℝ)
    (hla : lo ≤ a) (hlb : lo ≤ b) (hlc : lo ≤ c)
    (hah : a ≤ hi) (hbh : b ≤ hi) (hch : c ≤ hi) :
    lo ≤ u * a + v * b + w * c ∧ u * a + v * b + w * c ≤ hi := by
  have l1 : u * lo ≤ u * a := mul_le_mul_of_nonneg_left hla hu
  have l2 : v * lo ≤ v * b := mul_le_mul_of_nonneg_left hlb hv
  have l3 : w * lo ≤ w * c := mul_le_mul_of_nonneg_left hlc hw
  have u1 : u * a ≤ u * hi := mul_le_mul_of_nonneg_left hah hu
  have u2 : v * b ≤ v * hi := mul_le_mul_of_nonneg_left hbh hv
  have u3 : w * c ≤ w * hi := mul_le_mul_of_nonneg_left hch hw
  have hlo : u * lo + v * lo + w * lo = lo := by
    rw [show u * lo + v * lo + w * lo = (u + v + w) * lo from by ring, hsum, one_mul]
  have hhi : u * hi + v * hi + w * hi = hi := by
    rw [show u * hi + v * hi + w * hi = (u + v + w) * hi from by ring, hsum, one_mul]
  constructor <;> linarith

/-- C9: both GPU samplers weigh a face's three vertices by
`u = 1 - sqrt(r1)`, `v = sqrt(r1) * (1 - r2)`, `w = sqrt(r1) * r2`
(the code binds `r1 = sqrt(rand())`, `r2 = rand()` and uses
`1 - r1`, `r1 * (1 - r2)`, `r1 * r2`).  For every `r1, r2` in `[0, 1]`
these weights sum to 1 and are nonnegative — the sampled point
`u*v0 + v*v1 + w*v2` is a convex combination of the face's vertices —
and consequently each of its coordinates lies between the corresponding
components of the bounding box computed by `calculate_bounding_box`,
for every positive chunk size. -/
theorem C9_barycentric_in_bbox (r1 r2 : ℝ) (_h10 : 0 ≤ r1) (h11 : r1 ≤ 1)
    (h20 : 0 ≤ r2) (h21 : r2 ≤ 1) (verts : List Vec3) (v0 v1 v2 : Vec3)
    (hv0 : v0 ∈ verts) (hv1 : v1 ∈ verts) (hv2 : v2 ∈ verts)
    (cs : Int) (hcs : 0 < cs) :
    ((1 - Real.sqrt r1) + Real.sqrt r1 * (1 - r2) + Real.sqrt r1 * r2 = 1 ∧
      0 ≤ 1 - Real.sqrt r1 ∧ 0 ≤ Real.sqrt r1 * (1 - r2) ∧ 0 ≤ Real.sqrt r1 * r2) ∧
    ∃ mnx mny mnz mxx mxy mxz : ℚ,
      calculate_bounding_box verts cs
        = .ok ((↑mnx, ↑mny, ↑mnz), (↑mxx, ↑mxy, ↑mxz)) ∧
      ((mnx : ℝ) ≤ (1 - Real.sqrt r1) * ↑v0.x + Real.sqrt r1 * (1 - r2) * ↑v1.x +
          Real.sqrt r1 * r2 * ↑v2.x ∧
        (1 - Real.sqrt r1) * ↑v0.x + Real.sqrt r1 * (1 - r2) * ↑v1.x +
          Real.sqrt r1 * r2 * ↑v2.x ≤ (mxx : ℝ)) ∧
      ((mny : ℝ) ≤ (1 - Real.sqrt r1) * ↑v0.y + Real.sqrt r1 * (1 - r2) * ↑v1.y +
          Real.sqrt r1 * r2 * ↑v2.y ∧
        (1 - Real.sqrt r1) * ↑v0.y + Real.sqrt r1 * (1 - r2) * ↑v1.y +
          Real.sqrt r1 * r2 * ↑v2.y ≤ (mxy : ℝ)) ∧
      ((mnz : ℝ) ≤ (1 - Real.sqrt r1) * ↑v0.z + Real.sqrt r1 * (1 - r2) * ↑v1.z +
          Real.sqrt r1 * r2 * ↑v2.z ∧
        (1 - Real.sqrt r1) * ↑v0.z + Real.sqrt r1 * (1 - r2) * ↑v1.z +
          Real.sqrt r1 * r2 * ↑v2.z ≤ (mxz : ℝ)) := by
  have hs0 : 0 ≤ Real.sqrt r1 := Real.sqrt_nonneg r1
  have hs1 : Real.sqrt r1 ≤ 1 := Real.sqrt_le_one.mpr h11
  have hu : 0 ≤ 1 - Real.sqrt r1 := by linarith
  have hv : 0 ≤ Real.sqrt r1 * (1 - r2) := mul_nonneg hs0 (by linarith)
  have hw : 0 ≤ Real.sqrt r1 * r2 := mul_nonneg hs0 h20
  have hsum : (1 - Real.sqrt r1) + Real.sqrt r1 * (1 - r2) + Real.sqrt r1 * r2 = 1 := by
    ring
  refine ⟨⟨hsum, hu, hv, hw⟩, ?_⟩
  have hne : verts ≠ [] := by
    intro h
    rw [h] at hv0
    exact List.not_mem_nil v0 hv0
  obtain ⟨mnx, hmnx, hmnxb⟩ := coordMin_spec Vec3.x verts hne
  obtain ⟨mny, hmny, hmnyb⟩ := coordMin_spec Vec3.y verts hne
  obtain ⟨mnz, hmnz, hmnzb⟩ := coordMin_spec Vec3.z verts hne
  obtain ⟨mxx, hmxx, hmxxb⟩ := coordMax_spec Vec3.x verts hne
  obtain ⟨mxy, hmxy, hmxyb⟩ := coordMax_spec Vec3.y verts hne
  obtain ⟨mxz, hmxz, hmxzb⟩ := coordMax_spec Vec3.z verts hne
  refine ⟨mnx, mny, mnz, mxx, mxy, mxz, ?_, ?_, ?_, ?_⟩
  · rw [calculate_bounding_box_pos verts cs hcs, hmnx, hmny, hmnz, hmxx, hmxy, hmxz]
  · exact convex_comb_bounds _ _ _ hu hv hw hsum _ _ _ _ _
      (by exact_mod_cast hmnxb v0 hv0) (by exact_mod_cast hmnxb v1 hv1)
      (by exact_mod_cast hmnxb v2 hv2) (by exact_mod_cast hmxxb v0 hv0)
      (by exact_mod_cast hmxxb v1 hv1) (by exact_mod_cast hmxxb v2 hv2)
  · exact convex_comb_bounds _ _ _ hu hv hw hsum _ _ _ _ _
      (by exact_mod_cast hmnyb v0 hv0) (by exact_mod_cast hmnyb v1 hv1)
      (by exact_mod_cast hmnyb v2 hv2) (by exact_mod_cast hmxyb v0 hv0)
      (by exact_mod_cast hmxyb v1 hv1) (by exact_mod_cast hmxyb v2 hv2)
  · exact convex_comb_bounds _ _ _ hu hv hw hsum _ _ _ _ _
      (by exact_mod_cast hmnzb v0 hv0) (by exact_mod_cast hmnzb v1 hv1)
      (by exact_mod_cast hmnzb v2 hv2) (by exact_mod_cast hmxzb v0 hv0)
      (by exact_mod_cast hmxzb v1 hv1) (by exact_mod_cast hmxzb v2 hv2)

theorem C9_barycentric_in_bbox_witness :
    ((0 : ℝ) ≤ 1 / 4 ∧ (1 : ℝ) / 4 ≤ 1 ∧ (0 : ℝ) ≤ 1 / 2 ∧ (1 : ℝ) / 2 ≤ 1 ∧
      (⟨0, 0, 0⟩ : Vec3) ∈ [(⟨0, 0, 0⟩ : Vec3)] ∧ (0 : Int) < 1) ∧
    (((1 - Real.sqrt (1 / 4)) + Real.sqrt (1 / 4) * (1 - 1 / 2) +
        Real.sqrt (1 / 4) * (1 / 2) = 1 ∧
      0 ≤ 1 - Real.sqrt (1 / 4) ∧ 0 ≤ Real.sqrt (1 / 4) * (1 - 1 / 2) ∧
      0 ≤ Real.sqrt (1 / 4) * (1 / 2)) ∧
    ∃ mnx mny mnz mxx mxy mxz : ℚ,
      calculate_bounding_box [(⟨0, 0, 0⟩ : Vec3)] 1
        = .ok ((↑mnx, ↑mny, ↑mnz), (↑mxx, ↑mxy, ↑mxz)) ∧
      ((mnx : ℝ) ≤ (1 - Real.sqrt (1 / 4)) * ↑(⟨0, 0, 0⟩ : Vec3).x +
          Real.sqrt (1 / 4) * (1 - 1 / 2) * ↑(⟨0, 0, 0⟩ : Vec3).x +
          Real.sqrt (1 / 4) * (1 / 2) * ↑(⟨0, 0, 0⟩ : Vec3).x ∧
        (1 - Real.sqrt (1 / 4)) * ↑(⟨0, 0, 0⟩ : Vec3).x +
          Real.sqrt (1 / 4) * (1 - 1 / 2) * ↑(⟨0, 0, 0⟩ : Vec3).x +
          Real.sqrt (1 / 4) * (1 / 2) * ↑(⟨0, 0, 0⟩ : Vec3).x ≤ (mxx : ℝ)) ∧
      ((mny : ℝ) ≤ (1 - Real.sqrt (1 / 4)) * ↑(⟨0, 0, 0⟩ : Vec3).y +
          Real.sqrt (1 / 4) * (1 - 1 / 2) * ↑(⟨0, 0, 0⟩ : Vec3).y +
          Real.sqrt (1 / 4) * (1 / 2) * ↑(⟨0, 0, 0⟩ : Vec3).y ∧
        (1 - Real.sqrt (1 / 4)) * ↑(⟨0, 0, 0⟩ : Vec3).y +
          Real.sqrt (1 / 4) * (1 - 1 / 2) * ↑(⟨0, 0, 0⟩ : Vec3).y +
          Real.sqrt (1 / 4) * (1 / 2) * ↑(⟨0, 0, 0⟩ : Vec3).y ≤ (mxy : ℝ)) ∧
      ((mnz : ℝ) ≤ (1 - Real.sqrt (1 / 4)) * ↑(⟨0, 0, 0⟩ : Vec3).z +
          Real.sqrt (1 / 4) * (1 - 1 / 2) * ↑(⟨0, 0, 0⟩ : Vec3).z +
          Real.sqrt (1 / 4) * (1 / 2) * ↑(⟨0, 0, 0⟩ : Vec3).z ∧
        (1 - Real.sqrt (1 / 4)) * ↑(⟨0, 0, 0⟩ : Vec3).z +
          Real.sqrt (1 / 4) * (1 - 1 / 2) * ↑(⟨0, 0, 0⟩ : Vec3).z +
          Real.sqrt (1 / 4) * (1 / 2) * ↑(⟨0, 0, 0⟩ : Vec3).z ≤ (mxz : ℝ))) :=
  ⟨⟨by norm_num, by norm_num, by norm_num, by norm_num, by simp, by decide⟩,
    C9_barycentric_in_bbox (1 / 4) (1 / 2) (by norm_num) (by norm_num) (by norm_num)
      (by norm_num) [⟨0, 0, 0⟩] ⟨0, 0, 0⟩ ⟨0, 0, 0⟩ ⟨0, 0, 0⟩
      (by simp) (by simp) (by simp) 1 (by decide)⟩

end MeshHeightmap
